import Mathlib

/-!
Verification of the fastai tabular neural-network model wrapper
(`tabular/src/autogluon/tabular/models/fastainn/tabular_nn_fastai.py`).

Shallow embedding conventions:
* pandas DataFrames are association lists of named columns; a categorical
  column carries its category list and (possibly null) cell values, a
  continuous column carries (possibly null) rational cell values;
* fallible pandas/python operations return `Except`, with an error type
  mirroring the exception class that the library raises;
* row-indexed frames used by `_generate_datasets` are plain lists of rows;
* the neural network itself is abstracted as a per-row prediction function
  (the fastai learner applies the trained network independently to each row).
-/

/-- Problem-type enumeration used by the orchestrator. The source only
distinguishes `REGRESSION` and `BINARY` specially; everything else goes
through the multiclass branches. -/
inductive ProblemType where
  | binary
  | multiclass
  | regression
deriving DecidableEq, Repr

/-! ### Dataset assembly (`_generate_datasets`, lines 268-277) -/

/-- Result of `_generate_datasets`: the concatenated frame (rows), the
concatenated label column, and the two integer index arrays. -/
structure GeneratedData (α β : Type) where
  df_rows : List α
  labels : List β
  train_idx : List ℕ
  val_idx : List ℕ
deriving Repr

/-- Embedding of `_generate_datasets`.
`pd.concat([X, X_val])` drops a `None` entry, `np.arange(len(X))` is
`List.range X.length`, and adding a scalar to an index array is `List.map`.
When `X_val is None` the frame (labels included, since the label column was
already assigned) is concatenated with itself and
`val_idx = train_idx + len(train_idx)`. -/
def generate_datasets {α β : Type} (X : List α) (y : List β)
    (X_val : Option (List α)) (y_val : Option (List β)) : GeneratedData α β :=
  let df_train := X ++ X_val.getD []
  let labels := y ++ y_val.getD []
  let train_idx := List.range X.length
  match X_val with
  | none =>
      { df_rows := df_train ++ df_train,
        labels := labels ++ labels,
        train_idx := train_idx,
        val_idx := train_idx.map (fun i => i + train_idx.length) }
  | some xv =>
      { df_rows := df_train,
        labels := labels,
        train_idx := train_idx,
        val_idx := (List.range xv.length).map (fun i => i + X.length) }

/-! ### Architecture sizing (`_fit`, lines 206-212) -/

/-- Embedding of the layer-size selection in `_fit`:
`params.get('layers')` if provided, else `[200, 100]` for regression/binary,
else `base_size = max(data.c * 2, 100)` and `[base_size * 2, base_size]`
(`data.c` is the number of classes). -/
def get_layers (layers_param : Option (List ℕ)) (problem_type : ProblemType)
    (num_classes : ℕ) : List ℕ :=
  match layers_param with
  | some layers => layers
  | none =>
    if problem_type = .regression ∨ problem_type = .binary then [200, 100]
    else
      let base_size := max (num_classes * 2) 100
      [base_size * 2, base_size]

/-- The layer-size rule exactly as the claim words it: for multi-class, the
hidden width is `max(2 * num_classes, 100)` and the network has two layers of
that width and half that width. Stated from the spec, to be compared with
`get_layers`. -/
def layers_claimed (layers_param : Option (List ℕ)) (problem_type : ProblemType)
    (num_classes : ℕ) : List ℕ :=
  match layers_param with
  | some layers => layers
  | none =>
    if problem_type = .regression ∨ problem_type = .binary then [200, 100]
    else
      let width := max (num_classes * 2) 100
      [width, width / 2]

/-! ### Stopping-metric resolution (`__get_objective_func_name`, lines 279-326) -/

/-- The key set of `metrics_map` in `__get_objective_func_name`, in source
order (`log_loss` is a key mapped to `None`). -/
def metrics_map_keys : List String :=
  ["root_mean_squared_error", "mean_squared_error", "mean_absolute_error", "r2",
   "accuracy",
   "f1", "f1_macro", "f1_micro", "f1_weighted",
   "roc_auc",
   "precision", "precision_macro", "precision_micro", "precision_weighted",
   "recall", "recall_macro", "recall_micro", "recall_weighted",
   "log_loss"]

/-- Outcome of the objective-name resolution: the name actually used, and
whether the substitution warning was logged. -/
structure ObjectiveNameResult where
  objective_func_name : String
  warned : Bool
deriving DecidableEq, Repr

/-- Embedding of the name-resolution part of `__get_objective_func_name`:
an unsupported `stopping_metric.name` is replaced by `mean_squared_error`
(regression) or `log_loss` (otherwise) with a logged warning. The function is
total: no path raises. -/
def get_objective_func_name (stopping_metric_name : String)
    (problem_type : ProblemType) : ObjectiveNameResult :=
  if stopping_metric_name ∈ metrics_map_keys then
    { objective_func_name := stopping_metric_name, warned := false }
  else if problem_type = .regression then
    { objective_func_name := "mean_squared_error", warned := true }
  else
    { objective_func_name := "log_loss", warned := true }

/-! ### Categorical-cardinality screening (`_preprocess`, lines 122-145) -/

/-- One row of `X.describe(include='all').T.reset_index()`: the column name
(`index`) and its `unique` statistic (`none` models NaN, the value pandas
reports for non-object columns). -/
structure StatRow where
  index : String
  unique : Option ℕ
deriving DecidableEq, Repr

/-- Embedding of the `try/except` around the cardinality screen: on success,
drop the columns whose `unique` statistic exceeds the threshold or is NaN
(`(X_stats['unique'] > max) | (X_stats['unique'].isna())`); if `describe`
raised, the bare `except:` yields `cat_cols_to_drop = []`. -/
def cat_cols_to_drop (stats : Except String (List StatRow))
    (max_unique : ℕ) : List String :=
  match stats with
  | .ok X_stats =>
      (X_stats.filter (fun r =>
        match r.unique with
        | some u => decide (u > max_unique)
        | none => true)).map (fun r => r.index)
  | .error _ => []

/-- Embedding of the remainder of the fit-time column classification
(lines 132-137): keep the frame columns not dropped, intersect the raw
categorical list with them, and restrict both lists to columns actually
present in the frame. Returns `(cat_columns, cont_columns)`. -/
def fit_feature_columns (raw_cat_columns raw_cont_columns X_columns : List String)
    (stats : Except String (List StatRow)) (max_unique : ℕ) :
    List String × List String :=
  let drop := cat_cols_to_drop stats max_unique
  let cat_cols_to_keep := X_columns.filter (fun c => !(drop.contains c))
  let cat_cols_to_use := raw_cat_columns.filter (fun c => cat_cols_to_keep.contains c)
  let cat_columns := cat_cols_to_use.filter (fun c => X_columns.contains c)
  let cont_columns := raw_cont_columns.filter (fun c => X_columns.contains c)
  (cat_columns, cont_columns)

/-! ### Frames and the missing-value imputer (`_fill_missing`, lines 147-154) -/

/-- The sentinel category for missing categorical data (module constant
`MISSING`). -/
def MISSING : String := "__!#ag_internal_missing#!__"

/-- A pandas column: categorical (with its category list and possibly-null
string cells) or continuous (possibly-null rational cells; `none` models
NaN). -/
inductive Column where
  | cat (categories : List String) (values : List (Option String))
  | cont (values : List (Option ℚ))
deriving DecidableEq, Repr

/-- Exceptions raised by the pandas operations used in `_fill_missing`. -/
inductive PandasError where
  | keyError (col : String)
  | valueError
  | typeError
deriving DecidableEq, Repr

/-- A per-column fill value: the sentinel string for categorical columns, the
training-set mean for continuous ones. -/
abbrev FillValue := String ⊕ ℚ

/-- A DataFrame: an association list of named columns. Duplicate names are
possible in pandas; lookups take the first match. -/
structure Frame where
  cols : List (String × Column)
deriving DecidableEq, Repr

/-- First column with the given name, if any. -/
def lookupCol : List (String × Column) → String → Option Column
  | [], _ => none
  | p :: ps, c => if p.1 = c then some p.2 else lookupCol ps c

/-- Column access `df[c]` as an `Option`. -/
def Frame.get (df : Frame) (c : String) : Option Column :=
  lookupCol df.cols c

/-- The frame's column names, in order. -/
def Frame.names (df : Frame) : List String :=
  df.cols.map Prod.fst

/-- Column assignment `df[c] = col` for a column already present: every
column named `c` is replaced (pandas assigns through all duplicates); a frame
without the name is unchanged (in `_fill_missing` the name is always present,
having just been selected). -/
def Frame.set (df : Frame) (c : String) (col : Column) : Frame :=
  ⟨df.cols.map (fun p => if p.1 = c then (c, col) else p)⟩

/-- Column access `df[c]` raising `KeyError` when absent. -/
def getCol (df : Frame) (c : String) : Except PandasError Column :=
  match df.get c with
  | some col => .ok col
  | none => .error (.keyError c)

/-- Column selection for `df[self._inner_features]`: all named columns in the
given order; `KeyError` on the first absent name. -/
def selectCols (df : Frame) : List String → Except PandasError (List (String × Column))
  | [] => .ok []
  | c :: cs =>
    match df.get c with
    | some col =>
      match selectCols df cs with
      | .ok rest => .ok ((c, col) :: rest)
      | .error e => .error e
    | none => .error (.keyError c)

/-- Embedding of `df[features].copy()`. -/
def Frame.select (df : Frame) (cs : List String) : Except PandasError Frame :=
  match selectCols df cs with
  | .ok l => .ok ⟨l⟩
  | .error e => .error e

/-- The category list of a column (empty for continuous columns). -/
def Column.categories : Column → List String
  | .cat cats _ => cats
  | .cont _ => []

/-- Embedding of `series.cat.add_categories(s)`: raises `ValueError` when the
new category is already present ("new categories must not include old
categories"), and `.cat` is only available on categorical dtype. -/
def Column.addCategories : Column → String → Except PandasError Column
  | .cat cats vals, s =>
    if s ∈ cats then .error .valueError
    else .ok (.cat (cats ++ [s]) vals)
  | .cont _, _ => .error .typeError

/-- Embedding of `series.fillna(v)`: on a categorical column the fill value
must be an existing category (otherwise pandas raises), on a continuous
column nulls are replaced by the rational fill value. -/
def Column.fillna : Column → FillValue → Except PandasError Column
  | .cat cats vals, .inl s =>
    if s ∈ cats then .ok (.cat cats (vals.map (fun v => some (v.getD s))))
    else .error .typeError
  | .cat _ _, .inr _ => .error .typeError
  | .cont vals, .inr q => .ok (.cont (vals.map (fun v => some (v.getD q))))
  | .cont _, .inl _ => .error .typeError

/-- The fitted feature schema: categorical columns, continuous columns and
the per-column fill values (`self.cat_columns`, `self.cont_columns`,
`self.columns_fills`), built once at fit time. -/
structure Schema where
  cat_columns : List String
  cont_columns : List String
  columns_fills : List (String × FillValue)
deriving DecidableEq, Repr

/-- `self._inner_features = self.cat_columns + self.cont_columns`. -/
def Schema.inner_features (s : Schema) : List String :=
  s.cat_columns ++ s.cont_columns

/-- Dictionary access `self.columns_fills[c]` (`KeyError` when absent). -/
def lookupFill (fills : List (String × FillValue)) (c : String) :
    Except PandasError FillValue :=
  match fills.find? (fun p => p.1 = c) with
  | some p => .ok p.2
  | none => .error (.keyError c)

/-- One iteration of the categorical loop of `_fill_missing`:
`df[c] = df[c].cat.add_categories(MISSING)` then
`df[c] = df[c].fillna(self.columns_fills[c])`. -/
def fillCatStep (fills : List (String × FillValue)) (df : Frame) (c : String) :
    Except PandasError Frame :=
  match getCol df c with
  | .error e => .error e
  | .ok col =>
    match col.addCategories MISSING with
    | .error e => .error e
    | .ok col1 =>
      match lookupFill fills c with
      | .error e => .error e
      | .ok fv =>
        match col1.fillna fv with
        | .error e => .error e
        | .ok col2 => .ok (df.set c col2)

/-- One iteration of the continuous loop of `_fill_missing`:
`df[c] = df[c].fillna(self.columns_fills[c])`. -/
def fillContStep (fills : List (String × FillValue)) (df : Frame) (c : String) :
    Except PandasError Frame :=
  match getCol df c with
  | .error e => .error e
  | .ok col =>
    match lookupFill fills c with
    | .error e => .error e
    | .ok fv =>
      match col.fillna fv with
      | .error e => .error e
      | .ok col2 => .ok (df.set c col2)

/-- A python `for c in columns:` loop whose body may raise. -/
def foldSteps (step : Frame → String → Except PandasError Frame) :
    Frame → List String → Except PandasError Frame
  | df, [] => .ok df
  | df, c :: cs =>
    match step df c with
    | .ok df2 => foldSteps step df2 cs
    | .error e => .error e

/-- Embedding of `_fill_missing`: select the fitted feature columns, then run
the categorical fill loop and the continuous fill loop. The fitted fill
values are read, never recomputed. -/
def fill_missing (sch : Schema) (df : Frame) : Except PandasError Frame :=
  match df.select sch.inner_features with
  | .error e => .error e
  | .ok df1 =>
    match foldSteps (fillCatStep sch.columns_fills) df1 sch.cat_columns with
    | .error e => .error e
    | .ok df2 => foldSteps (fillContStep sch.columns_fills) df2 sch.cont_columns

/-! ### Training batch size (`_fit`, line 223) -/

/-- Embedding of `data.dataloaders(bs=self.params['bs'] if len(X) > self.params['bs'] else 32)`. -/
def choose_batch_size (bs n_train : ℕ) : ℕ :=
  if n_train > bs then bs else 32

/-! ### Prediction (`_predict_proba`, lines 351-374) -/

/-- Prediction output: a flat vector (the regression and binary paths return
a 1-D array) or a per-row probability matrix (multiclass). -/
inductive Preds where
  | vec (v : List ℚ)
  | mat (m : List (List ℚ))
deriving DecidableEq, Repr

/-- Row 0 of a prediction, as the claim reads it externally: the first entry
of a flat vector (regression outputs one value per row, binary one
probability per row), the first row of a matrix. -/
def Preds.firstRow : Preds → Preds
  | .vec v => .vec (v.take 1)
  | .mat m => .mat (m.take 1)

/-- Post-processing of the raw network outputs in `_predict_proba`:
regression flattens with `reshape(-1)` (inverse-transforming first when a
y-scaler is active), binary keeps probability column 1 (`preds[:, 1]`),
multiclass returns the full matrix. -/
def postprocess_preds (pt : ProblemType) (scaler : Option (ℚ → ℚ))
    (preds : List (List ℚ)) : Preds :=
  match pt with
  | .regression =>
    match scaler with
    | some inv => .vec ((preds.map (fun r => r.map inv)).flatten)
    | none => .vec preds.flatten
  | .binary => .vec (preds.map (fun r => r.getD 1 0))
  | .multiclass => .mat preds

/-- Embedding of `_predict_proba`. The trained learner is abstracted as a
per-row function `model` producing the raw prediction row (`get_preds` on a
test dataloader applies the network independently to each row). If exactly
one row is submitted it is first duplicated (`pd.concat([X, X])`), and after
inference only the first output row is kept (`preds = preds[:1, :]`). -/
def predict_proba {α : Type} (pt : ProblemType) (scaler : Option (ℚ → ℚ))
    (model : α → List ℚ) (X : List α) : Preds :=
  let single_row : Bool := X.length == 1
  let X2 := if single_row then X ++ X else X
  let preds := X2.map model
  let preds2 := if single_row then preds.take 1 else preds
  postprocess_preds pt scaler preds2

/-- Reference predictor with no single-row workaround, per the spec's words
(the workaround "must not change the result"): the per-row model applied to
every row, then post-processed. -/
def predict_proba_direct {α : Type} (pt : ProblemType) (scaler : Option (ℚ → ℚ))
    (model : α → List ℚ) (X : List α) : Preds :=
  postprocess_preds pt scaler (X.map model)

/-! ### Persistence (`save`, lines 376-391) -/

/-- Python runtime errors surfaced by `save`. -/
inductive PythonError where
  | nameError (name : String)
deriving DecidableEq, Repr

/-- The slice of model state that `save` manipulates: the live trained-model
handle `self.model` and the `self._load_model` flag. -/
structure PersistState (M : Type) where
  model : Option M
  load_model : Option Bool
deriving DecidableEq, Repr

/-- Observable outcome of a completed `save` call: the snapshot that
`super().save` pickled (with the model handle detached), the content of the
`model-internals.pkl` artifact if one was written, and the returned path. -/
structure SaveOutcome (M : Type) where
  serialized_config : PersistState M
  exported_model : Option M
  returned_path : String
deriving DecidableEq, Repr

/-- Embedding of `save`. `self._load_model` is set from `self.model`, the
model handle is detached (`self.model = None`) before `super().save`
serializes the object and returns the save path (modelled as returning
`path`), then the handle is restored. If a model exists, the export call
builds the artifact path with the f-string
`f'{path_final}{self.model_internals_file_name}'` — but `path_final` is not
defined anywhere in the module, so evaluating the f-string raises
`NameError` before anything is exported and before the path is returned. -/
def save_model {M : Type} (s : PersistState M) (path : String) :
    Except PythonError (SaveOutcome M) :=
  let load_model := s.model.isSome
  let detached : PersistState M := { model := none, load_model := some load_model }
  let serialized := detached
  if load_model then
    .error (.nameError "path_final")
  else
    .ok { serialized_config := serialized, exported_model := none,
          returned_path := path }

/-! ### Theorems -/

/-- C3: with a supplied validation set, `_generate_datasets` returns train
indices exactly `[0, n_train)` and validation indices exactly
`[n_train, n_train + n_val)`; the two index sets are disjoint and their sizes
sum to the length of the assembled frame. -/
theorem generate_datasets_with_val {α β : Type} (X : List α) (y : List β)
    (X_val : List α) (y_val : Option (List β)) :
    (∀ i, i ∈ (generate_datasets X y (some X_val) y_val).train_idx ↔ i < X.length) ∧
    (∀ i, i ∈ (generate_datasets X y (some X_val) y_val).val_idx ↔
        X.length ≤ i ∧ i < X.length + X_val.length) ∧
    (∀ i, i ∈ (generate_datasets X y (some X_val) y_val).train_idx →
        i ∉ (generate_datasets X y (some X_val) y_val).val_idx) ∧
    (generate_datasets X y (some X_val) y_val).train_idx.length +
        (generate_datasets X y (some X_val) y_val).val_idx.length =
      (generate_datasets X y (some X_val) y_val).df_rows.length := by
  refine ⟨?_, ?_, ?_, ?_⟩
  · intro i
    simp [generate_datasets, List.mem_range]
  · intro i
    simp only [generate_datasets, List.mem_map, List.mem_range]
    constructor
    · rintro ⟨j, hj, rfl⟩
      omega
    · rintro ⟨h1, h2⟩
      exact ⟨i - X.length, by omega, by omega⟩
  · intro i hi hv
    simp only [generate_datasets, List.mem_range] at hi
    simp only [generate_datasets, List.mem_map, List.mem_range] at hv
    obtain ⟨j, _, rfl⟩ := hv
    omega
  · simp [generate_datasets]

/-- C4: with no validation set, `_generate_datasets` assembles a frame of
exactly `2 * n` rows made of two identical copies of the train data; train
indices cover the first copy `[0, n)`, validation indices the second copy
`[n, 2n)`, partitioning the frame into two equal non-overlapping halves. -/
theorem generate_datasets_no_val {α β : Type} (X : List α) (y : List β)
    (y_val : Option (List β)) :
    (generate_datasets X y none y_val).df_rows.length = 2 * X.length ∧
    (generate_datasets X y none y_val).df_rows = X ++ X ∧
    (∀ i, i ∈ (generate_datasets X y none y_val).train_idx ↔ i < X.length) ∧
    (∀ i, i ∈ (generate_datasets X y none y_val).val_idx ↔
        X.length ≤ i ∧ i < 2 * X.length) ∧
    (∀ i, i ∈ (generate_datasets X y none y_val).train_idx →
        i ∉ (generate_datasets X y none y_val).val_idx) ∧
    (generate_datasets X y none y_val).train_idx.length = X.length ∧
    (generate_datasets X y none y_val).val_idx.length = X.length := by
  refine ⟨?_, ?_, ?_, ?_, ?_, ?_, ?_⟩
  · simp [generate_datasets]; omega
  · simp [generate_datasets]
  · intro i
    simp [generate_datasets, List.mem_range]
  · intro i
    simp only [generate_datasets, List.mem_map, List.mem_range, List.length_range]
    constructor
    · rintro ⟨j, hj, rfl⟩
      omega
    · rintro ⟨h1, h2⟩
      exact ⟨i - X.length, by omega, by omega⟩
  · intro i hi hv
    simp only [generate_datasets, List.mem_range] at hi
    simp only [generate_datasets, List.mem_map, List.mem_range,
      List.length_range] at hv
    obtain ⟨j, _, rfl⟩ := hv
    omega
  · simp [generate_datasets]
  · simp [generate_datasets]

/-- C5 counterexample: at `num_classes = 3` with no explicit layer list, the
code produces `[200, 100]` while the claim's rule (two layers of width
`max(2*3, 100) = 100` and half that width) gives `[100, 50]`. -/
theorem get_layers_counterexample :
    get_layers none .multiclass 3 = [200, 100] ∧
    layers_claimed none .multiclass 3 = [100, 50] ∧
    get_layers none .multiclass 3 ≠ layers_claimed none .multiclass 3 := by
  decide

/-- C5 (amended): an explicit layer list is used verbatim; binary/regression
get the fixed shape `[200, 100]`; multi-class sets
`base_size = max(2 * num_classes, 100)` and uses two layers of twice that
width and that width, i.e. `[2 * base_size, base_size]`. -/
theorem get_layers_spec (layers_param : Option (List ℕ)) (pt : ProblemType)
    (num_classes : ℕ) :
    (∀ l, layers_param = some l → get_layers layers_param pt num_classes = l) ∧
    (layers_param = none → (pt = .binary ∨ pt = .regression) →
        get_layers layers_param pt num_classes = [200, 100]) ∧
    (layers_param = none → pt = .multiclass →
        get_layers layers_param pt num_classes =
          [max (num_classes * 2) 100 * 2, max (num_classes * 2) 100]) := by
  refine ⟨?_, ?_, ?_⟩
  · intro l hl
    simp [get_layers, hl]
  · rintro rfl (rfl | rfl) <;> simp [get_layers]
  · rintro rfl rfl
    simp [get_layers]

/-- C5 witness: the amended rule evaluated at concrete inputs, one per branch. -/
theorem get_layers_spec_witness :
    get_layers (some [64, 32]) .binary 0 = [64, 32] ∧
    get_layers none .regression 0 = [200, 100] ∧
    get_layers none .multiclass 3 = [max (3 * 2) 100 * 2, max (3 * 2) 100] :=
  ⟨(get_layers_spec (some [64, 32]) .binary 0).1 [64, 32] rfl,
   (get_layers_spec none .regression 0).2.1 rfl (Or.inr rfl),
   (get_layers_spec none .multiclass 3).2.2 rfl rfl⟩

/-- C7: an unsupported stopping-metric name resolves to `mean_squared_error`
for regression and `log_loss` otherwise, with the substitution warning logged,
and never raises (the resolution function is total); a supported name is used
unchanged with no warning. -/
theorem objective_func_name_fallback (name : String) (pt : ProblemType) :
    (name ∉ metrics_map_keys →
        get_objective_func_name name pt =
          { objective_func_name :=
              if pt = .regression then "mean_squared_error" else "log_loss",
            warned := true }) ∧
    (name ∈ metrics_map_keys →
        get_objective_func_name name pt =
          { objective_func_name := name, warned := false }) := by
  constructor
  · intro h
    by_cases hr : pt = .regression <;> simp [get_objective_func_name, h, hr]
  · intro h
    simp [get_objective_func_name, h]

/-- C7 witness: `median_absolute_error` is unsupported and falls back per
problem type; `accuracy` is supported and kept. -/
theorem objective_func_name_fallback_witness :
    get_objective_func_name "median_absolute_error" .regression =
      { objective_func_name := "mean_squared_error", warned := true } ∧
    get_objective_func_name "median_absolute_error" .binary =
      { objective_func_name := "log_loss", warned := true } ∧
    get_objective_func_name "accuracy" .multiclass =
      { objective_func_name := "accuracy", warned := false } :=
  ⟨(objective_func_name_fallback "median_absolute_error" .regression).1 (by decide),
   (objective_func_name_fallback "median_absolute_error" .binary).1 (by decide),
   (objective_func_name_fallback "accuracy" .multiclass).2 (by decide)⟩

/-- C8: if `describe` raises, the set of columns dropped for excessive
cardinality is the empty list, no column is excluded on that basis (the
categorical/continuous lists are only restricted to columns present in the
frame), and — the embedding being total — the exception does not propagate. -/
theorem describe_failure_excludes_nothing (raw_cat raw_cont X_columns : List String)
    (e : String) (max_unique : ℕ) :
    cat_cols_to_drop (.error e) max_unique = [] ∧
    fit_feature_columns raw_cat raw_cont X_columns (.error e) max_unique =
      (raw_cat.filter (fun c => X_columns.contains c),
       raw_cont.filter (fun c => X_columns.contains c)) := by
  refine ⟨rfl, ?_⟩
  simp only [fit_feature_columns, cat_cols_to_drop, List.contains_nil,
    Bool.not_false, List.filter_true, Prod.mk.injEq]
  constructor
  · rw [List.filter_filter]
    apply List.filter_congr
    intro c _
    simp
  · trivial

/-- C10 counterexample: with `bs = 32` and a 5-row train set, the chosen batch
size equals the configured `bs` even though the row count does not exceed
`bs`, refuting "equals `bs` only when rows strictly exceed `bs`". -/
theorem choose_batch_size_counterexample :
    choose_batch_size 32 5 = 32 ∧ ¬ (5 > 32) := by
  decide

/-- C10 (amended): the training dataloader batch size is the configured `bs`
when the train set has strictly more than `bs` rows, and `32` otherwise (the
two coincide when `bs = 32`). -/
theorem choose_batch_size_spec (bs n_train : ℕ) :
    (n_train > bs → choose_batch_size bs n_train = bs) ∧
    (n_train ≤ bs → choose_batch_size bs n_train = 32) := by
  constructor
  · intro h
    simp [choose_batch_size, h]
  · intro h
    simp [choose_batch_size, Nat.not_lt.mpr h]

/-- C10 witness: both branches at concrete inputs. -/
theorem choose_batch_size_spec_witness :
    choose_batch_size 256 1000 = 256 ∧ choose_batch_size 256 100 = 32 :=
  ⟨(choose_batch_size_spec 256 1000).1 (by decide),
   (choose_batch_size_spec 256 100).2 (by decide)⟩

/-! ### Frame lemmas -/

/-- Replacing a column does not change the frame's column-name list. -/
theorem Frame.names_set (df : Frame) (c : String) (col : Column) :
    (df.set c col).names = df.names := by
  simp only [Frame.set, Frame.names, List.map_map]
  apply List.map_congr_left
  intro p _
  by_cases h : p.1 = c <;> simp [Function.comp, h]

/-- Effect of `Frame.set` on a subsequent lookup. -/
theorem lookupCol_map_set (l : List (String × Column)) (c c' : String) (col : Column) :
    lookupCol (l.map (fun p => if p.1 = c then (c, col) else p)) c' =
      if c' = c then (lookupCol l c').map (fun _ => col) else lookupCol l c' := by
  induction l with
  | nil => by_cases h : c' = c <;> simp [lookupCol, h]
  | cons p ps ih =>
    simp only [List.map_cons, lookupCol]
    by_cases h1 : p.1 = c
    · by_cases h2 : c' = c
      · subst h2
        simp [lookupCol, h1]
      · have hne : ¬ c = c' := fun hh => h2 hh.symm
        have hp : ¬ p.1 = c' := by rw [h1]; exact hne
        simp [lookupCol, hne, h2, hp, ih, h1]
    · by_cases h2 : c' = c
      · subst h2
        simp [lookupCol, h1, ih]
      · simp [lookupCol, h1, h2, ih]

/-- Effect of `Frame.set` on `Frame.get`. -/
theorem Frame.get_set (df : Frame) (c c' : String) (col : Column) :
    (df.set c col).get c' =
      if c' = c then (df.get c').map (fun _ => col) else df.get c' := by
  simp only [Frame.set, Frame.get]
  exact lookupCol_map_set df.cols c c' col

/-- A lookup succeeds exactly when the name occurs in the list. -/
theorem lookupCol_isSome_iff (l : List (String × Column)) (c : String) :
    (lookupCol l c).isSome ↔ c ∈ l.map Prod.fst := by
  induction l with
  | nil => simp [lookupCol]
  | cons p ps ih =>
    by_cases h : p.1 = c
    · simp [lookupCol, h]
    · have h' : ¬ c = p.1 := fun hh => h hh.symm
      simp [lookupCol, h, h', ih]

/-- A successful selection returns columns named exactly as requested, in
request order. -/
theorem selectCols_ok_names {df : Frame} {cs : List String}
    {l : List (String × Column)} (h : selectCols df cs = .ok l) :
    l.map Prod.fst = cs := by
  induction cs generalizing l with
  | nil =>
    simp only [selectCols, Except.ok.injEq] at h
    subst h
    rfl
  | cons c cs ih =>
    simp only [selectCols] at h
    cases hg : df.get c with
    | none => rw [hg] at h; exact Except.noConfusion h
    | some col =>
      rw [hg] at h
      cases hs : selectCols df cs with
      | error e => rw [hs] at h; exact Except.noConfusion h
      | ok rest =>
        rw [hs] at h
        simp only [Except.ok.injEq] at h
        subst h
        simp [ih hs]

/-- A successful selection preserves every requested column's content: a
lookup in the selected frame agrees with a lookup in the original. -/
theorem selectCols_ok_lookup {df : Frame} {cs : List String}
    {l : List (String × Column)} (h : selectCols df cs = .ok l) :
    ∀ c ∈ cs, lookupCol l c = df.get c := by
  induction cs generalizing l with
  | nil => intro c hc; exact absurd hc (List.not_mem_nil c)
  | cons c0 cs ih =>
    intro c hc
    simp only [selectCols] at h
    cases hg : df.get c0 with
    | none => rw [hg] at h; exact Except.noConfusion h
    | some col =>
      rw [hg] at h
      cases hs : selectCols df cs with
      | error e => rw [hs] at h; exact Except.noConfusion h
      | ok rest =>
        rw [hs] at h
        simp only [Except.ok.injEq] at h
        subst h
        by_cases hcc : c0 = c
        · subst hcc
          simp [lookupCol, hg]
        · simp only [lookupCol, if_neg hcc]
          have hmem : c ∈ cs := by
            rcases List.mem_cons.mp hc with hh | hh
            · exact absurd hh.symm hcc
            · exact hh
          exact ih hs c hmem

/-- Selection succeeds when every requested name is present in the frame. -/
theorem selectCols_ok_of_names {df : Frame} {cs : List String}
    (h : ∀ c ∈ cs, c ∈ df.names) : ∃ l, selectCols df cs = .ok l := by
  induction cs with
  | nil => exact ⟨[], rfl⟩
  | cons c0 cs ih =>
    have h0 : c0 ∈ df.names := h c0 (List.mem_cons_self c0 cs)
    have hsome : (df.get c0).isSome :=
      (lookupCol_isSome_iff df.cols c0).mpr h0
    obtain ⟨col, hcol⟩ := Option.isSome_iff_exists.mp hsome
    obtain ⟨rest, hrest⟩ := ih (fun c hc => h c (List.mem_cons_of_mem c0 hc))
    refine ⟨(c0, col) :: rest, ?_⟩
    simp only [selectCols, hcol, hrest]

/-- Selection raises a `KeyError` naming some requested column when a
requested column is absent from the frame. -/
theorem selectCols_error_of_missing {df : Frame} {cs : List String} {c : String}
    (hc : c ∈ cs) (hn : c ∉ df.names) :
    ∃ c', c' ∈ cs ∧ selectCols df cs = .error (.keyError c') := by
  induction cs with
  | nil => exact absurd hc (List.not_mem_nil c)
  | cons c0 cs ih =>
    cases hg : df.get c0 with
    | none =>
      refine ⟨c0, List.mem_cons_self c0 cs, ?_⟩
      simp only [selectCols, hg]
    | some col =>
      have hcc : c ≠ c0 := by
        intro hh
        subst hh
        exact hn ((lookupCol_isSome_iff df.cols c).mp (by simp [Frame.get] at hg ⊢; simp [hg]))
      have hmem : c ∈ cs := by
        rcases List.mem_cons.mp hc with hh | hh
        · exact absurd hh hcc
        · exact hh
      obtain ⟨c', hc', herr⟩ := ih hmem
      refine ⟨c', List.mem_cons_of_mem c0 hc', ?_⟩
      simp only [selectCols, hg, herr]

/-- An erroring body step makes the whole loop error (head case of
`foldSteps`). -/
theorem foldSteps_error_head {step : Frame → String → Except PandasError Frame}
    {df : Frame} {c : String} {cs : List String} {e : PandasError}
    (h : step df c = .error e) :
    foldSteps step df (c :: cs) = .error e := by
  simp only [foldSteps, h]

/-- A property preserved by every successful body step is preserved by the
whole loop. -/
theorem foldSteps_ok_preserve {step : Frame → String → Except PandasError Frame}
    (P : Frame → Prop)
    (hstep : ∀ df c df2, step df c = .ok df2 → P df → P df2) :
    ∀ (l : List String) (df df' : Frame),
      foldSteps step df l = .ok df' → P df → P df' := by
  intro l
  induction l with
  | nil =>
    intro df df' h hp
    simp only [foldSteps, Except.ok.injEq] at h
    subst h
    exact hp
  | cons c cs ih =>
    intro df df' h hp
    simp only [foldSteps] at h
    cases hs : step df c with
    | error e => rw [hs] at h; exact Except.noConfusion h
    | ok df2 =>
      rw [hs] at h
      exact ih df2 df' h (hstep df c df2 hs hp)

/-- `getCol` succeeds exactly when the plain lookup does. -/
theorem getCol_ok_iff {df : Frame} {c : String} {col : Column} :
    getCol df c = .ok col ↔ df.get c = some col := by
  simp only [getCol]
  cases hg : df.get c <;> simp

/-- Decomposition of a successful categorical fill step. -/
theorem fillCatStep_ok_elim {fills : List (String × FillValue)} {df : Frame}
    {c : String} {df2 : Frame} (h : fillCatStep fills df c = .ok df2) :
    ∃ col col1 fv col2, getCol df c = .ok col ∧
      col.addCategories MISSING = .ok col1 ∧
      lookupFill fills c = .ok fv ∧
      col1.fillna fv = .ok col2 ∧
      df2 = df.set c col2 := by
  simp only [fillCatStep] at h
  split at h
  · exact Except.noConfusion h
  · rename_i col hg
    split at h
    · exact Except.noConfusion h
    · rename_i col1 ha
      split at h
      · exact Except.noConfusion h
      · rename_i fv hf
        split at h
        · exact Except.noConfusion h
        · rename_i col2 hn
          simp only [Except.ok.injEq] at h
          exact ⟨col, col1, fv, col2, hg, ha, hf, hn, h.symm⟩

/-- Decomposition of a successful continuous fill step. -/
theorem fillContStep_ok_elim {fills : List (String × FillValue)} {df : Frame}
    {c : String} {df2 : Frame} (h : fillContStep fills df c = .ok df2) :
    ∃ col fv col2, getCol df c = .ok col ∧
      lookupFill fills c = .ok fv ∧
      col.fillna fv = .ok col2 ∧
      df2 = df.set c col2 := by
  simp only [fillContStep] at h
  split at h
  · exact Except.noConfusion h
  · rename_i col hg
    split at h
    · exact Except.noConfusion h
    · rename_i fv hf
      split at h
      · exact Except.noConfusion h
      · rename_i col2 hn
        simp only [Except.ok.injEq] at h
        exact ⟨col, fv, col2, hg, hf, hn, h.symm⟩

/-- Filling nulls never changes a column's category list. -/
theorem Column.fillna_categories {col col2 : Column} {fv : FillValue}
    (h : col.fillna fv = .ok col2) : col2.categories = col.categories := by
  cases col with
  | cat cats vals =>
    cases fv with
    | inl s =>
      simp only [Column.fillna] at h
      by_cases hs : s ∈ cats
      · rw [if_pos hs] at h
        simp only [Except.ok.injEq] at h
        subst h
        rfl
      · rw [if_neg hs] at h
        exact Except.noConfusion h
    | inr q => simp [Column.fillna] at h
  | cont vals =>
    cases fv with
    | inl s => simp [Column.fillna] at h
    | inr q =>
      simp only [Column.fillna, Except.ok.injEq] at h
      subst h
      rfl

/-- A successful `add_categories` call requires the category to be absent,
and appends it. -/
theorem Column.addCategories_ok_elim {col col1 : Column} {s : String}
    (h : col.addCategories s = .ok col1) :
    ∃ cats vals, col = .cat cats vals ∧ s ∉ cats ∧
      col1 = .cat (cats ++ [s]) vals := by
  cases col with
  | cat cats vals =>
    simp only [Column.addCategories] at h
    by_cases hs : s ∈ cats
    · rw [if_pos hs] at h
      exact Except.noConfusion h
    · rw [if_neg hs] at h
      simp only [Except.ok.injEq] at h
      exact ⟨cats, vals, rfl, hs, h.symm⟩
  | cont vals => simp [Column.addCategories] at h

/-- `add_categories` raises `ValueError` when the category already exists. -/
theorem Column.addCategories_mem_error {cats : List String}
    {vals : List (Option String)} {s : String} (hs : s ∈ cats) :
    Column.addCategories (.cat cats vals) s = .error .valueError := by
  simp [Column.addCategories, hs]

/-- A continuous fill step leaves "this column holds the sentinel category"
true for every column. -/
theorem fillContStep_preserves_missing {fills : List (String × FillValue)}
    {df df2 : Frame} {c c0 : String}
    (h : fillContStep fills df c = .ok df2)
    (hm : ∃ col, df.get c0 = some col ∧ MISSING ∈ col.categories) :
    ∃ col, df2.get c0 = some col ∧ MISSING ∈ col.categories := by
  obtain ⟨col0, hg0, hmem⟩ := hm
  obtain ⟨col, fv, col2, hg, hf, hn, rfl⟩ := fillContStep_ok_elim h
  rw [Frame.get_set]
  by_cases hc : c0 = c
  · subst hc
    have hcol : col = col0 := by
      have h1 := getCol_ok_iff.mp hg
      rw [hg0] at h1
      exact (Option.some.inj h1).symm
    subst hcol
    rw [if_pos rfl, hg0]
    exact ⟨col2, rfl, by rw [Column.fillna_categories hn]; exact hmem⟩
  · rw [if_neg hc]
    exact ⟨col0, hg0, hmem⟩

/-- A categorical fill step on another column leaves "this column holds the
sentinel category" true; on a column already holding the sentinel it cannot
succeed at all. -/
theorem fillCatStep_preserves_missing {fills : List (String × FillValue)}
    {df df2 : Frame} {c c0 : String}
    (h : fillCatStep fills df c = .ok df2)
    (hm : ∃ col, df.get c0 = some col ∧ MISSING ∈ col.categories) :
    ∃ col, df2.get c0 = some col ∧ MISSING ∈ col.categories := by
  obtain ⟨col0, hg0, hmem⟩ := hm
  obtain ⟨col, col1, fv, col2, hg, ha, hf, hn, rfl⟩ := fillCatStep_ok_elim h
  by_cases hc : c0 = c
  · exfalso
    subst hc
    have hcol : col = col0 := by
      have h1 := getCol_ok_iff.mp hg
      rw [hg0] at h1
      exact (Option.some.inj h1).symm
    subst hcol
    obtain ⟨cats, vals, hcc, hnotin, _⟩ := Column.addCategories_ok_elim ha
    subst hcc
    exact hnotin (by simpa [Column.categories] using hmem)
  · rw [Frame.get_set, if_neg hc]
    exact ⟨col0, hg0, hmem⟩

/-- After a successful categorical fill step, the processed column holds the
sentinel category. -/
theorem fillCatStep_sets_missing {fills : List (String × FillValue)}
    {df df2 : Frame} {c : String}
    (h : fillCatStep fills df c = .ok df2) :
    ∃ col, df2.get c = some col ∧ MISSING ∈ col.categories := by
  obtain ⟨col, col1, fv, col2, hg, ha, hf, hn, rfl⟩ := fillCatStep_ok_elim h
  obtain ⟨cats, vals, hcc, hnotin, hcol1⟩ := Column.addCategories_ok_elim ha
  rw [Frame.get_set, if_pos rfl, getCol_ok_iff.mp hg]
  refine ⟨col2, rfl, ?_⟩
  rw [Column.fillna_categories hn, hcol1]
  simp [Column.categories]

/-- After a successful categorical fill loop, the first processed column
holds the sentinel category. -/
theorem foldSteps_cat_head_missing {fills : List (String × FillValue)}
    {df df2 : Frame} {c0 : String} {rest : List String}
    (h : foldSteps (fillCatStep fills) df (c0 :: rest) = .ok df2) :
    ∃ col, df2.get c0 = some col ∧ MISSING ∈ col.categories := by
  simp only [foldSteps] at h
  cases hs : fillCatStep fills df c0 with
  | error e => rw [hs] at h; exact Except.noConfusion h
  | ok dfa =>
    rw [hs] at h
    exact foldSteps_ok_preserve
      (fun f => ∃ col, f.get c0 = some col ∧ MISSING ∈ col.categories)
      (fun dfx c dfy hstep hp => fillCatStep_preserves_missing hstep hp)
      rest dfa df2 h (fillCatStep_sets_missing hs)

/-- The categorical fill loop does not change the column-name list. -/
theorem foldSteps_cat_names {fills : List (String × FillValue)}
    {l : List String} {df df2 : Frame}
    (h : foldSteps (fillCatStep fills) df l = .ok df2) :
    df2.names = df.names :=
  foldSteps_ok_preserve (fun f => f.names = df.names)
    (fun dfx c dfy hstep hp => by
      obtain ⟨_, _, _, col2, _, _, _, _, rfl⟩ := fillCatStep_ok_elim hstep
      rw [Frame.names_set]
      exact hp)
    l df df2 h rfl

/-- The continuous fill loop does not change the column-name list. -/
theorem foldSteps_cont_names {fills : List (String × FillValue)}
    {l : List String} {df df2 : Frame}
    (h : foldSteps (fillContStep fills) df l = .ok df2) :
    df2.names = df.names :=
  foldSteps_ok_preserve (fun f => f.names = df.names)
    (fun dfx c dfy hstep hp => by
      obtain ⟨_, _, col2, _, _, _, rfl⟩ := fillContStep_ok_elim hstep
      rw [Frame.names_set]
      exact hp)
    l df df2 h rfl

/-- Decomposition of a successful column selection at the frame level. -/
theorem Frame.select_ok_elim {df df1 : Frame} {cs : List String}
    (h : df.select cs = .ok df1) :
    ∃ l, selectCols df cs = .ok l ∧ df1 = ⟨l⟩ := by
  simp only [Frame.select] at h
  cases hs : selectCols df cs with
  | error e => rw [hs] at h; exact Except.noConfusion h
  | ok l =>
    rw [hs] at h
    simp only [Except.ok.injEq] at h
    exact ⟨l, rfl, h.symm⟩

/-- C1 (amended): `_fill_missing` is deterministic (a pure function of the
fitted schema and the input frame) and never recomputes fill values (it only
reads `columns_fills`), but it is not idempotent: whenever the fitted schema
has at least one categorical column, a successful application followed by a
second application raises `ValueError`, because `cat.add_categories(MISSING)`
rejects the sentinel category that the first application already added. -/
theorem fill_missing_second_application_raises (sch : Schema) (df out : Frame)
    (hne : sch.cat_columns ≠ []) (h : fill_missing sch df = .ok out) :
    fill_missing sch out = .error .valueError := by
  obtain ⟨c0, rest, hcc⟩ : ∃ c0 rest, sch.cat_columns = c0 :: rest := by
    cases hc : sch.cat_columns with
    | nil => exact absurd hc hne
    | cons a l => exact ⟨a, l, rfl⟩
  simp only [fill_missing] at h
  split at h
  · exact Except.noConfusion h
  · rename_i df1 hsel
    split at h
    · exact Except.noConfusion h
    · rename_i df2 hcat
      obtain ⟨l1, hsc, hdf1⟩ := Frame.select_ok_elim hsel
      subst hdf1
      have hn2 : df2.names = sch.inner_features := by
        rw [foldSteps_cat_names hcat]
        exact selectCols_ok_names hsc
      have hnout : out.names = sch.inner_features := by
        rw [foldSteps_cont_names h]
        exact hn2
      have hm2 : ∃ col, df2.get c0 = some col ∧ MISSING ∈ col.categories := by
        rw [hcc] at hcat
        exact foldSteps_cat_head_missing hcat
      have hmout : ∃ col, out.get c0 = some col ∧ MISSING ∈ col.categories :=
        foldSteps_ok_preserve
          (fun f => ∃ col, f.get c0 = some col ∧ MISSING ∈ col.categories)
          (fun dfx c dfy hstep hp => fillContStep_preserves_missing hstep hp)
          sch.cont_columns df2 out h hm2
      obtain ⟨colM, hgot, hmem⟩ := hmout
      obtain ⟨cats, vals, hcol, hmemc⟩ :
          ∃ cats vals, colM = Column.cat cats vals ∧ MISSING ∈ cats := by
        cases colM with
        | cat cats vals => exact ⟨cats, vals, rfl, hmem⟩
        | cont v => simp [Column.categories] at hmem
      subst hcol
      have hpres : ∀ c ∈ sch.inner_features, c ∈ out.names := by
        intro c hcin
        rw [hnout]
        exact hcin
      obtain ⟨l2, hsc2⟩ := selectCols_ok_of_names hpres
      have hc0in : c0 ∈ sch.inner_features := by
        simp [Schema.inner_features, hcc]
      have hgetl2 : (Frame.mk l2).get c0 = some (Column.cat cats vals) := by
        show lookupCol l2 c0 = _
        rw [selectCols_ok_lookup hsc2 c0 hc0in, hgot]
      have hstepfail :
          fillCatStep sch.columns_fills ⟨l2⟩ c0 = .error .valueError := by
        have hgc : getCol ⟨l2⟩ c0 = .ok (Column.cat cats vals) :=
          getCol_ok_iff.mpr hgetl2
        simp only [fillCatStep, hgc, Column.addCategories_mem_error hmemc]
      have hfold : foldSteps (fillCatStep sch.columns_fills) ⟨l2⟩ sch.cat_columns
          = .error .valueError := by
        rw [hcc]
        exact foldSteps_error_head hstepfail
      have hsel2 : out.select sch.inner_features = .ok ⟨l2⟩ := by
        simp only [Frame.select, hsc2]
      simp only [fill_missing, hsel2, hfold]

/-- C1 counterexample: a schema with one categorical column `a` filled by the
sentinel. The first application succeeds; applying `_fill_missing` to its own
output does not return that output again — it raises `ValueError` — so
applying the imputer twice does not yield the same frame as applying it
once. -/
theorem fill_missing_not_idempotent_counterexample :
    fill_missing ⟨["a"], [], [("a", Sum.inl MISSING)]⟩
        ⟨[("a", Column.cat ["x"] [none])]⟩ =
      .ok ⟨[("a", Column.cat ["x", MISSING] [some MISSING])]⟩ ∧
    fill_missing ⟨["a"], [], [("a", Sum.inl MISSING)]⟩
        ⟨[("a", Column.cat ["x", MISSING] [some MISSING])]⟩ =
      .error .valueError := by
  constructor <;> rfl

/-- C1 witness: the amended theorem applied at the concrete one-column
schema and frame of the counterexample. -/
theorem fill_missing_second_application_raises_witness :
    fill_missing ⟨["a"], [], [("a", Sum.inl MISSING)]⟩
        ⟨[("a", Column.cat ["x", MISSING] [some MISSING])]⟩ =
      .error .valueError :=
  fill_missing_second_application_raises
    ⟨["a"], [], [("a", Sum.inl MISSING)]⟩
    ⟨[("a", Column.cat ["x"] [none])]⟩
    ⟨[("a", Column.cat ["x", MISSING] [some MISSING])]⟩
    (by decide) (by rfl)

/-- C9: after fitting, a preprocessing call that succeeds returns a frame
whose columns are exactly the fitted schema columns in schema order (extra
input columns are silently dropped), while an input frame missing any schema
column makes the call fail with a distinguishable `KeyError` naming a schema
column, producing no output. -/
theorem preprocess_schema_stability (sch : Schema) (df : Frame) :
    (∀ out, fill_missing sch df = .ok out → out.names = sch.inner_features) ∧
    (∀ c, c ∈ sch.inner_features → c ∉ df.names →
        ∃ c', c' ∈ sch.inner_features ∧
          fill_missing sch df = .error (.keyError c')) := by
  constructor
  · intro out h
    simp only [fill_missing] at h
    split at h
    · exact Except.noConfusion h
    · rename_i df1 hsel
      split at h
      · exact Except.noConfusion h
      · rename_i df2 hcat
        obtain ⟨l1, hsc, hdf1⟩ := Frame.select_ok_elim hsel
        subst hdf1
        rw [foldSteps_cont_names h, foldSteps_cat_names hcat]
        exact selectCols_ok_names hsc
  · intro c hcin hnot
    obtain ⟨c', hc', herr⟩ := selectCols_error_of_missing hcin hnot
    refine ⟨c', hc', ?_⟩
    simp only [fill_missing, Frame.select, herr]

/-- C9 witness: a fitted schema `(cat a, cont b)`; a frame with an extra
column `z` preprocesses to exactly `[a, b]` in schema order, and a frame
missing `b` fails with a `KeyError` on a schema column. -/
theorem preprocess_schema_stability_witness :
    (Frame.mk [("a", Column.cat ["x", MISSING] [some "x"]),
               ("b", Column.cont [some 0])]).names =
      Schema.inner_features ⟨["a"], ["b"],
        [("a", Sum.inl MISSING), ("b", Sum.inr (0 : ℚ))]⟩ ∧
    (∃ c', c' ∈ Schema.inner_features ⟨["a"], ["b"],
          [("a", Sum.inl MISSING), ("b", Sum.inr (0 : ℚ))]⟩ ∧
        fill_missing ⟨["a"], ["b"], [("a", Sum.inl MISSING), ("b", Sum.inr (0 : ℚ))]⟩
            ⟨[("a", Column.cat ["x"] [some "x"])]⟩ =
          .error (.keyError c')) :=
  ⟨(preprocess_schema_stability
      ⟨["a"], ["b"], [("a", Sum.inl MISSING), ("b", Sum.inr (0 : ℚ))]⟩
      ⟨[("z", Column.cont [some 1]), ("a", Column.cat ["x"] [some "x"]),
        ("b", Column.cont [none])]⟩).1
      ⟨[("a", Column.cat ["x", MISSING] [some "x"]), ("b", Column.cont [some 0])]⟩
      (by rfl),
   (preprocess_schema_stability
      ⟨["a"], ["b"], [("a", Sum.inl MISSING), ("b", Sum.inr (0 : ℚ))]⟩
      ⟨[("a", Column.cat ["x"] [some "x"])]⟩).2
      "b" (by decide) (by decide)⟩

/-- C6: for every problem type, predicting on a single-row input yields
exactly row 0 of the prediction on that row duplicated into a two-row batch
(regression networks emit one output column per row, which the hypothesis
records), and the internal duplication workaround is externally invisible:
the predictor agrees with a reference predictor that has no single-row
special case, on every input. -/
theorem predict_single_row_equiv {α : Type} (pt : ProblemType)
    (scaler : Option (ℚ → ℚ)) (model : α → List ℚ) (r : α)
    (hreg : pt = ProblemType.regression → (model r).length = 1) :
    predict_proba pt scaler model [r] =
      (predict_proba pt scaler model [r, r]).firstRow ∧
    ∀ X : List α, predict_proba pt scaler model X =
      predict_proba_direct pt scaler model X := by
  have hequiv : ∀ X : List α, predict_proba pt scaler model X =
      predict_proba_direct pt scaler model X := by
    intro X
    match X with
    | [] => rfl
    | [x] => rfl
    | x :: y :: rest => rfl
  refine ⟨?_, hequiv⟩
  rw [hequiv [r]]
  show postprocess_preds pt scaler [model r] =
    (postprocess_preds pt scaler [model r, model r]).firstRow
  cases pt with
  | regression =>
    obtain ⟨a, ha⟩ := List.length_eq_one.mp (hreg rfl)
    cases scaler with
    | none => simp [postprocess_preds, Preds.firstRow, ha]
    | some inv => simp [postprocess_preds, Preds.firstRow, ha]
  | binary => simp [postprocess_preds, Preds.firstRow]
  | multiclass => simp [postprocess_preds, Preds.firstRow]

/-- C6 witness: a one-output regression model on a unit row type. -/
theorem predict_single_row_equiv_witness :
    predict_proba .regression none (fun _ : Unit => [(3 : ℚ)]) [()] =
      (predict_proba .regression none (fun _ : Unit => [(3 : ℚ)]) [(), ()]).firstRow ∧
    predict_proba .regression none (fun _ : Unit => [(3 : ℚ)]) [(), ()] =
      predict_proba_direct .regression none (fun _ : Unit => [(3 : ℚ)]) [(), ()] :=
  ⟨(predict_single_row_equiv .regression none (fun _ : Unit => [(3 : ℚ)]) ()
      (fun _ => rfl)).1,
   (predict_single_row_equiv .regression none (fun _ : Unit => [(3 : ℚ)]) ()
      (fun _ => rfl)).2 [(), ()]⟩

/-- C2: whenever a trained model handle exists, `save` does not complete:
after serializing the configuration with the model detached, the export call
evaluates the undefined name `path_final` and raises `NameError`, so the
model-internals artifact is never written and no save path is returned —
contradicting the claim that save completes and returns the save path. -/
theorem save_raises_name_error {M : Type} (s : PersistState M) (path : String)
    (m : M) (h : s.model = some m) :
    save_model s path = .error (.nameError "path_final") := by
  simp [save_model, h]

/-- C2 witness: a fitted state with a live model handle. -/
theorem save_raises_name_error_witness :
    save_model (⟨some 7, none⟩ : PersistState ℕ) "models/nn/" =
      .error (.nameError "path_final") :=
  save_raises_name_error ⟨some 7, none⟩ "models/nn/" 7 rfl
